import Mathlib

/-!
Verification development for the flight-booking system.

Part 1 embeds the seat-reservation protocol: the PL/pgSQL function
`book_seats` (init SQL) together with the transaction wrapper of
`POST /api/bookings` in `src/app/server.js`.  The store is the part of the
primary database the protocol touches: the `seats` table (availability
flag and optimistic-concurrency version) and the `booking_details` table
(one reservation line per booked seat).

Rollback semantics: the HTTP handler wraps the call in BEGIN/COMMIT and
issues ROLLBACK on any error, and a PL/pgSQL exception aborts the
enclosing transaction, so every non-confirmed outcome leaves the durable
state exactly as it was.  The embedding returns the original store on
every non-confirmed outcome for that reason.
-/

/-- One row of the `seats` table: `is_available` and `version`. -/
structure Seat where
  available : Bool
  version : Nat
deriving DecidableEq, Repr

/-- One row of `booking_details`: a reservation line. -/
structure BookingLine where
  bookingId : Nat
  seatId : Nat
  passengerName : String
  price : Int
deriving DecidableEq, Repr

/-- The durable state the reservation protocol touches. -/
structure Store where
  seats : List (Nat × Seat)
  lines : List BookingLine
deriving DecidableEq, Repr

/-- Outcome of one reservation attempt, as classified by the HTTP layer
(`POST /api/bookings`): messages containing "not available" or "lock" map
to 409 Conflict, everything else to 500.  The `Seat X is not available`
exception carries one seat id; the `lock_not_available` handler re-raises
`Could not acquire lock on seat. Please try again.` which names no seat. -/
inductive Outcome
  | confirmed
  | conflictUnavailable (seatId : Nat)
  | conflictLock
  | transientFailure
deriving DecidableEq, Repr

/-- `SELECT ... FROM seats WHERE seat_id = id`: first row with that key. -/
def lookupSeat : List (Nat × Seat) → Nat → Option Seat
  | [], _ => none
  | (i, s) :: rest, id => if i = id then some s else lookupSeat rest id

/-- `UPDATE seats SET is_available = FALSE, version = version + 1 WHERE seat_id = id`. -/
def reserveSeatRow : List (Nat × Seat) → Nat → List (Nat × Seat)
  | [], _ => []
  | (i, s) :: rest, id =>
    if i = id then (i, { available := false, version := s.version + 1 }) :: reserveSeatRow rest id
    else (i, s) :: reserveSeatRow rest id

/-- `UPDATE seats SET is_available = TRUE WHERE seat_id = id` (cancellation path). -/
def releaseSeatRow : List (Nat × Seat) → Nat → List (Nat × Seat)
  | [], _ => []
  | (i, s) :: rest, id =>
    if i = id then (i, { available := true, version := s.version }) :: releaseSeatRow rest id
    else (i, s) :: releaseSeatRow rest id

/-- `ARRAY_AGG(seat_id ORDER BY seat_id)`: the requested ids in ascending order. -/
def sortSeatIds (ids : List Nat) : List Nat :=
  List.insertionSort (fun a b => a ≤ b) ids

/-- The first loop of `book_seats`: for each seat in sorted order issue
`SELECT is_available ... FOR UPDATE NOWAIT`.  `locked` is the set of seat
rows currently locked by other transactions; hitting one raises
`lock_not_available`.  A row whose `is_available` is false raises
`Seat X is not available`.  A missing row leaves `v_is_available` NULL,
and `IF NOT NULL` does not fire, so the loop continues.
The second component records the lock attempts actually issued, in order. -/
def checkSeats (locked : List Nat) (st : Store) : List Nat → Option Outcome × List Nat
  | [] => (none, [])
  | id :: rest =>
    if id ∈ locked then (some .conflictLock, [id])
    else
      match lookupSeat st.seats id with
      | some s =>
        if s.available then
          ((checkSeats locked st rest).1, id :: (checkSeats locked st rest).2)
        else (some (.conflictUnavailable id), [id])
      | none =>
        ((checkSeats locked st rest).1, id :: (checkSeats locked st rest).2)

/-- The second loop of `book_seats`: per sorted position `idx`, update the
seat row and insert a reservation line whose passenger name and price are
`p_passenger_names[idx]` / `p_prices[idx]` — indexed by the position in
the SORTED array.  `none` models a raised storage error: an out-of-range
array subscript is NULL and violates NOT NULL on insert, a missing seat
row violates the foreign key, and a duplicate `(booking_id, seat_id)`
violates the UNIQUE constraint. -/
def applySeats (bookingId : Nat) (names : List String) (prices : List Int) :
    Nat → List Nat → Store → Option Store
  | _, [], st => some st
  | idx, id :: rest, st =>
    match lookupSeat st.seats id, names.get? idx, prices.get? idx with
    | some _, some nm, some pr =>
      if (st.lines.filter (fun l => l.bookingId == bookingId && l.seatId == id)).isEmpty then
        applySeats bookingId names prices (idx + 1) rest
          { seats := reserveSeatRow st.seats id,
            lines := st.lines ++ [⟨bookingId, id, nm, pr⟩] }
      else none
    | _, _, _ => none

/-- `book_seats` as called by `POST /api/bookings`: sort the ids, run the
check loop, then the mutation loop; any exception rolls the transaction
back in full, so the original store is returned on every failure. -/
def book_seats (locked : List Nat) (bookingId : Nat) (seatIds : List Nat)
    (passengerNames : List String) (prices : List Int) (st : Store) : Outcome × Store :=
  let sorted := sortSeatIds seatIds
  match (checkSeats locked st sorted).1 with
  | some o => (o, st)
  | none =>
    match applySeats bookingId passengerNames prices 0 sorted st with
    | some st2 => (.confirmed, st2)
    | none => (.transientFailure, st)

/-- The sequence of row-lock acquisition attempts a reservation attempt issues. -/
def lockAttempts (locked : List Nat) (st : Store) (seatIds : List Nat) : List Nat :=
  (checkSeats locked st (sortSeatIds seatIds)).2

/-! ### Helper lemmas about the reservation protocol -/

theorem lookupSeat_reserveSeatRow_self (seats : List (Nat × Seat)) (id : Nat) :
    lookupSeat (reserveSeatRow seats id) id
      = (lookupSeat seats id).map (fun s => ⟨false, s.version + 1⟩) := by
  induction seats with
  | nil => rfl
  | cons p rest ih =>
    obtain ⟨i, s⟩ := p
    by_cases h : i = id
    · subst h
      simp [reserveSeatRow, lookupSeat]
    · simp [reserveSeatRow, lookupSeat, h, ih]

theorem lookupSeat_reserveSeatRow_ne (seats : List (Nat × Seat)) (j id : Nat) (h : j ≠ id) :
    lookupSeat (reserveSeatRow seats j) id = lookupSeat seats id := by
  induction seats with
  | nil => rfl
  | cons p rest ih =>
    obtain ⟨i, s⟩ := p
    by_cases hij : i = j
    · subst hij
      simp [reserveSeatRow, lookupSeat, h, ih]
    · by_cases hid : i = id
      · subst hid
        simp [reserveSeatRow, lookupSeat, hij]
      · simp [reserveSeatRow, lookupSeat, hij, hid, ih]

theorem checkSeats_none_forall (locked : List Nat) (st : Store) :
    ∀ l, (checkSeats locked st l).1 = none →
      ∀ id ∈ l, id ∉ locked ∧ ∀ s, lookupSeat st.seats id = some s → s.available = true := by
  intro l
  induction l with
  | nil =>
    intro _ id h
    simp at h
  | cons a rest ih =>
    intro hnone id hmem
    by_cases ha : a ∈ locked
    · simp [checkSeats, ha] at hnone
    · rcases hlk : lookupSeat st.seats a with _ | s
      · simp only [checkSeats, if_neg ha, hlk] at hnone
        rcases List.mem_cons.mp hmem with rfl | hmem2
        · exact ⟨ha, fun s hs => by rw [hlk] at hs; cases hs⟩
        · exact ih hnone id hmem2
      · by_cases hav : s.available = true
        · simp only [checkSeats, if_neg ha, hlk, hav, if_true] at hnone
          rcases List.mem_cons.mp hmem with rfl | hmem2
          · refine ⟨ha, fun s2 hs2 => ?_⟩
            rw [hlk] at hs2
            cases hs2
            exact hav
          · exact ih hnone id hmem2
        · simp only [checkSeats, if_neg ha, hlk, hav, if_false] at hnone
          cases hnone

theorem checkSeats_conflictUnavailable (locked : List Nat) (st : Store) (id : Nat) :
    ∀ l, (checkSeats locked st l).1 = some (.conflictUnavailable id) →
      id ∈ l ∧ ∃ v, lookupSeat st.seats id = some ⟨false, v⟩ := by
  intro l
  induction l with
  | nil =>
    intro h
    cases h
  | cons a rest ih =>
    intro h
    by_cases ha : a ∈ locked
    · simp only [checkSeats, if_pos ha] at h
      cases h
    · rcases hlk : lookupSeat st.seats a with _ | s
      · simp only [checkSeats, if_neg ha, hlk] at h
        obtain ⟨hm, hv⟩ := ih h
        exact ⟨List.mem_cons_of_mem a hm, hv⟩
      · by_cases hav : s.available = true
        · simp only [checkSeats, if_neg ha, hlk, hav, if_true] at h
          obtain ⟨hm, hv⟩ := ih h
          exact ⟨List.mem_cons_of_mem a hm, hv⟩
        · simp only [checkSeats, if_neg ha, hlk, hav, if_false] at h
          have h2 : a = id := by simpa using h
          subst h2
          obtain ⟨av, ver⟩ := s
          cases av
          · exact ⟨List.mem_cons_self a rest, ver, hlk⟩
          · exact absurd rfl hav

theorem checkSeats_unavail_conflict (locked : List Nat) (st : Store) :
    ∀ l, (∃ id ∈ l, ∃ v, lookupSeat st.seats id = some ⟨false, v⟩) →
      ∃ o, (checkSeats locked st l).1 = some o ∧
        (o = .conflictLock ∨ ∃ j, o = .conflictUnavailable j) := by
  intro l
  induction l with
  | nil =>
    rintro ⟨id, h, _⟩
    simp at h
  | cons a rest ih =>
    rintro ⟨id, hmem, v, hv⟩
    by_cases ha : a ∈ locked
    · exact ⟨.conflictLock, by simp [checkSeats, ha], Or.inl rfl⟩
    · rcases hlk : lookupSeat st.seats a with _ | s
      · have hmem2 : id ∈ rest := by
          rcases List.mem_cons.mp hmem with rfl | hm
          · rw [hlk] at hv; cases hv
          · exact hm
        obtain ⟨o, ho, hc⟩ := ih ⟨id, hmem2, v, hv⟩
        exact ⟨o, by simp only [checkSeats, if_neg ha, hlk]; exact ho, hc⟩
      · by_cases hav : s.available = true
        · have hmem2 : id ∈ rest := by
            rcases List.mem_cons.mp hmem with rfl | hm
            · rw [hlk] at hv
              cases hv
              simp at hav
            · exact hm
          obtain ⟨o, ho, hc⟩ := ih ⟨id, hmem2, v, hv⟩
          refine ⟨o, ?_, hc⟩
          simp only [checkSeats, if_neg ha, hlk, hav, if_true]
          exact ho
        · refine ⟨.conflictUnavailable a, ?_, Or.inr ⟨a, rfl⟩⟩
          simp [checkSeats, ha, hlk, hav]

theorem checkSeats_trace_initial_segment (locked : List Nat) (st : Store) :
    ∀ l, ∃ rest, l = (checkSeats locked st l).2 ++ rest := by
  intro l
  induction l with
  | nil => exact ⟨[], rfl⟩
  | cons a tail ih =>
    by_cases ha : a ∈ locked
    · exact ⟨tail, by simp [checkSeats, ha]⟩
    · rcases hlk : lookupSeat st.seats a with _ | s
      · obtain ⟨rest, hr⟩ := ih
        refine ⟨rest, ?_⟩
        simp only [checkSeats, if_neg ha, hlk, List.cons_append]
        rw [← hr]
      · by_cases hav : s.available = true
        · obtain ⟨rest, hr⟩ := ih
          refine ⟨rest, ?_⟩
          simp only [checkSeats, if_neg ha, hlk, hav, if_true, List.cons_append]
          rw [← hr]
        · exact ⟨tail, by simp [checkSeats, ha, hlk, hav]⟩

theorem checkSeats_none_trace (locked : List Nat) (st : Store) :
    ∀ l, (checkSeats locked st l).1 = none → (checkSeats locked st l).2 = l := by
  intro l
  induction l with
  | nil => intro _; rfl
  | cons a tail ih =>
    intro hnone
    by_cases ha : a ∈ locked
    · simp [checkSeats, ha] at hnone
    · rcases hlk : lookupSeat st.seats a with _ | s
      · simp only [checkSeats, if_neg ha, hlk] at hnone ⊢
        rw [ih hnone]
      · by_cases hav : s.available = true
        · simp only [checkSeats, if_neg ha, hlk, hav, if_true] at hnone ⊢
          rw [ih hnone]
        · simp only [checkSeats, if_neg ha, hlk, hav, if_false] at hnone
          cases hnone

theorem checkSeats_ne_confirmed (locked : List Nat) (st : Store) :
    ∀ l, (checkSeats locked st l).1 ≠ some .confirmed := by
  intro l
  induction l with
  | nil =>
    intro h
    cases h
  | cons a rest ih =>
    intro h
    by_cases ha : a ∈ locked
    · simp [checkSeats, ha] at h
    · rcases hlk : lookupSeat st.seats a with _ | s
      · simp only [checkSeats, if_neg ha, hlk] at h
        exact ih h
      · by_cases hav : s.available = true
        · simp only [checkSeats, if_neg ha, hlk, hav, if_true] at h
          exact ih h
        · simp [checkSeats, ha, hlk, hav] at h

theorem lines_filter_append_ne (lines : List BookingLine) (ln : BookingLine) (id : Nat)
    (h : ln.seatId ≠ id) :
    (lines ++ [ln]).filter (fun x => x.seatId == id)
      = lines.filter (fun x => x.seatId == id) := by
  have hb : (ln.seatId == id) = false := by
    simp [h]
  simp [List.filter_append, List.filter, hb]

theorem lines_filter_append_self (lines : List BookingLine) (ln : BookingLine) (id : Nat)
    (h : ln.seatId = id) :
    (lines ++ [ln]).filter (fun x => x.seatId == id)
      = lines.filter (fun x => x.seatId == id) ++ [ln] := by
  have hb : (ln.seatId == id) = true := by
    simp [h]
  simp [List.filter_append, List.filter, hb]

theorem applySeats_preserve (bid : Nat) (names : List String) (prices : List Int) (id : Nat) :
    ∀ l idx st st2, id ∉ l → applySeats bid names prices idx l st = some st2 →
      lookupSeat st2.seats id = lookupSeat st.seats id ∧
      st2.lines.filter (fun x => x.seatId == id)
        = st.lines.filter (fun x => x.seatId == id) := by
  intro l
  induction l with
  | nil =>
    intro idx st st2 _ h
    cases h
    exact ⟨rfl, rfl⟩
  | cons j rest ih =>
    intro idx st st2 hnm h
    have hj : j ≠ id := fun he => hnm (he ▸ List.mem_cons_self j rest)
    have hid : id ∉ rest := fun hm => hnm (List.mem_cons_of_mem j hm)
    rcases hlk : lookupSeat st.seats j with _ | s <;>
      rcases hn : names.get? idx with _ | nm <;>
        rcases hp : prices.get? idx with _ | pr <;>
          simp only [applySeats, hlk, hn, hp] at h <;>
            try cases h
    by_cases hdup :
        (st.lines.filter (fun l => l.bookingId == bid && l.seatId == j)).isEmpty = true
    · rw [if_pos hdup] at h
      obtain ⟨h1, h2⟩ := ih (idx + 1) _ st2 hid h
      constructor
      · rw [h1]
        exact lookupSeat_reserveSeatRow_ne _ j id hj
      · rw [h2]
        exact lines_filter_append_ne st.lines _ id hj
    · rw [if_neg hdup] at h
      cases h

theorem applySeats_spec (bid : Nat) (names : List String) (prices : List Int) :
    ∀ l idx st st2, l.Nodup → applySeats bid names prices idx l st = some st2 →
      ∀ id ∈ l, ∃ s, lookupSeat st.seats id = some s ∧
        lookupSeat st2.seats id = some ⟨false, s.version + 1⟩ ∧
        (st2.lines.filter (fun x => x.seatId == id)).length
          = (st.lines.filter (fun x => x.seatId == id)).length + 1 := by
  intro l
  induction l with
  | nil =>
    intro idx st st2 _ _ id hm
    simp at hm
  | cons j rest ih =>
    intro idx st st2 hnd h id hm
    have hjrest : j ∉ rest := (List.nodup_cons.mp hnd).1
    have hndr : rest.Nodup := (List.nodup_cons.mp hnd).2
    rcases hlk : lookupSeat st.seats j with _ | s <;>
      rcases hn : names.get? idx with _ | nm <;>
        rcases hp : prices.get? idx with _ | pr <;>
          simp only [applySeats, hlk, hn, hp] at h <;>
            try cases h
    by_cases hdup :
        (st.lines.filter (fun l => l.bookingId == bid && l.seatId == j)).isEmpty = true
    · rw [if_pos hdup] at h
      rcases List.mem_cons.mp hm with rfl | hm2
      · obtain ⟨h1, h2⟩ := applySeats_preserve bid names prices id _ (idx + 1) _ st2 hjrest h
        refine ⟨s, hlk, ?_, ?_⟩
        · rw [h1]
          have hself := lookupSeat_reserveSeatRow_self st.seats id
          rw [hlk] at hself
          exact hself
        · rw [h2, lines_filter_append_self st.lines _ id rfl]
          simp
      · have hne : j ≠ id := fun he => hjrest (he ▸ hm2)
        obtain ⟨s2, hs1, hs2, hs3⟩ := ih (idx + 1) _ st2 hndr h id hm2
        refine ⟨s2, ?_, hs2, ?_⟩
        · rw [← hs1]
          exact (lookupSeat_reserveSeatRow_ne st.seats j id hne).symm
        · rw [hs3, lines_filter_append_ne st.lines _ id hne]
    · rw [if_neg hdup] at h
      cases h

theorem applySeats_mono_unavail (bid : Nat) (names : List String) (prices : List Int) :
    ∀ l idx st st2 id v, applySeats bid names prices idx l st = some st2 →
      lookupSeat st.seats id = some ⟨false, v⟩ →
      ∃ v2, lookupSeat st2.seats id = some ⟨false, v2⟩ := by
  intro l
  induction l with
  | nil =>
    intro idx st st2 id v h hv
    cases h
    exact ⟨v, hv⟩
  | cons j rest ih =>
    intro idx st st2 id v h hv
    rcases hlk : lookupSeat st.seats j with _ | s <;>
      rcases hn : names.get? idx with _ | nm <;>
        rcases hp : prices.get? idx with _ | pr <;>
          simp only [applySeats, hlk, hn, hp] at h <;>
            try cases h
    by_cases hdup :
        (st.lines.filter (fun l => l.bookingId == bid && l.seatId == j)).isEmpty = true
    · rw [if_pos hdup] at h
      by_cases hji : j = id
      · subst hji
        have hself := lookupSeat_reserveSeatRow_self st.seats j
        rw [hv] at hself
        exact ih (idx + 1) _ st2 j _ h hself
      · have hpres : lookupSeat (reserveSeatRow st.seats j) id = some ⟨false, v⟩ := by
          rw [lookupSeat_reserveSeatRow_ne st.seats j id hji]
          exact hv
        exact ih (idx + 1) _ st2 id v h hpres
    · rw [if_neg hdup] at h
      cases h

/-! ### Claim C1 — passenger/price alignment in book_seats -/

/-- Concrete store for the C1 failing input: seats 3 and 5 both available. -/
def stC1 : Store := { seats := [(3, ⟨true, 0⟩), (5, ⟨true, 0⟩)], lines := [] }

/-- C1 (code bug evaluation): for the request seatIds = [5, 3],
passengerNames = [Alice, Bob], prices = [100, 200], the booking is
Confirmed, yet the reservation line for seat 3 (= seatIds[1]) carries
Alice/100 instead of Bob/200, because `book_seats` indexes
`p_passenger_names` and `p_prices` by the position in the SORTED seat-id
array while the caller aligns them with the original input order. -/
theorem C1_book_seats_misaligns_passengers :
    (book_seats [] 7 [5, 3] ["Alice", "Bob"] [100, 200] stC1).1 = .confirmed ∧
    (book_seats [] 7 [5, 3] ["Alice", "Bob"] [100, 200] stC1).2.lines
      = [⟨7, 3, "Alice", 100⟩, ⟨7, 5, "Bob", 200⟩] := by
  exact ⟨by decide, by decide⟩

/-! ### Claim C3 — atomicity of effects -/

/-- C3: a reservation attempt that does not return Confirmed commits no
durable change (the transaction is rolled back in full), and on Confirmed
every requested seat undergoes exactly one transition: availability goes
from true to false, version is incremented exactly once, and exactly one
reservation line for that seat is appended. -/
theorem C3_atomic_effects (locked : List Nat) (bid : Nat) (ids : List Nat)
    (names : List String) (prices : List Int) (st : Store) (hnd : ids.Nodup) :
    ((book_seats locked bid ids names prices st).1 ≠ .confirmed →
      (book_seats locked bid ids names prices st).2 = st) ∧
    ((book_seats locked bid ids names prices st).1 = .confirmed →
      ∀ id ∈ ids, ∃ v, lookupSeat st.seats id = some ⟨true, v⟩ ∧
        lookupSeat (book_seats locked bid ids names prices st).2.seats id
          = some ⟨false, v + 1⟩ ∧
        ((book_seats locked bid ids names prices st).2.lines.filter
            (fun x => x.seatId == id)).length
          = (st.lines.filter (fun x => x.seatId == id)).length + 1) := by
  rcases hchk : (checkSeats locked st (sortSeatIds ids)).1 with _ | o
  · rcases happ : applySeats bid names prices 0 (sortSeatIds ids) st with _ | st2
    · have hb : book_seats locked bid ids names prices st = (.transientFailure, st) := by
        simp [book_seats, hchk, happ]
      rw [hb]
      exact ⟨fun _ => rfl, fun hc => by cases hc⟩
    · have hb : book_seats locked bid ids names prices st = (.confirmed, st2) := by
        simp [book_seats, hchk, happ]
      rw [hb]
      refine ⟨fun hne => absurd rfl hne, fun _ id hmem => ?_⟩
      have hmem2 : id ∈ sortSeatIds ids :=
        ((List.perm_insertionSort _ ids).mem_iff).mpr hmem
      have hnd2 : (sortSeatIds ids).Nodup :=
        ((List.perm_insertionSort _ ids).nodup_iff).mpr hnd
      obtain ⟨s, hs1, hs2, hs3⟩ :=
        applySeats_spec bid names prices _ 0 st st2 hnd2 happ id hmem2
      have hav := (checkSeats_none_forall locked st _ hchk id hmem2).2 s hs1
      obtain ⟨av, v⟩ := s
      cases av
      · cases hav
      · exact ⟨v, hs1, hs2, hs3⟩
  · have hb : book_seats locked bid ids names prices st = (o, st) := by
      simp [book_seats, hchk]
    rw [hb]
    refine ⟨fun _ => rfl, fun hc => ?_⟩
    exfalso
    have ho : o = .confirmed := hc
    rw [ho] at hchk
    exact checkSeats_ne_confirmed locked st (sortSeatIds ids) hchk

/-- Concrete store used by witnesses: seats 1 and 2 available. -/
def stAvail : Store := { seats := [(1, ⟨true, 3⟩), (2, ⟨true, 5⟩)], lines := [] }

/-- Witness for C3 at a concrete input. -/
theorem C3_atomic_effects_witness :
    ∃ v, lookupSeat stAvail.seats 1 = some ⟨true, v⟩ ∧
      lookupSeat (book_seats [] 7 [2, 1] ["A", "B"] [10, 20] stAvail).2.seats 1
        = some ⟨false, v + 1⟩ ∧
      (((book_seats [] 7 [2, 1] ["A", "B"] [10, 20] stAvail).2.lines.filter
          (fun x => x.seatId == 1)).length
        = (stAvail.lines.filter (fun x => x.seatId == 1)).length + 1) :=
  (C3_atomic_effects [] 7 [2, 1] ["A", "B"] [10, 20] stAvail (by decide)).2
    (by decide) 1 (by decide)

/-! ### Claim C4 — what a Conflict names -/

/-- Concrete store for C4: seats 1 and 2 both already unavailable. -/
def stC4 : Store := { seats := [(1, ⟨false, 0⟩), (2, ⟨false, 0⟩)], lines := [] }

/-- C4 counterexample: requesting seats [1, 2] when both are unavailable
produces a Conflict naming only seat 1, although seat 2 is also a
contended requested seat — the outcome does not name "exactly the
contended seats" as the claim states. -/
theorem C4_counterexample_names_first_only :
    (book_seats [] 9 [1, 2] ["A", "B"] [10, 20] stC4).1 = .conflictUnavailable 1 ∧
    (∃ v, lookupSeat stC4.seats 2 = some ⟨false, v⟩) ∧ (2 : Nat) ∈ [1, 2] := by
  exact ⟨by decide, ⟨0, by decide⟩, by decide⟩

/-- C4 (amended): when a Conflict names a seat id, that seat is one the
caller actually requested and it is genuinely unavailable — never a seat
the caller did not contend on.  (The unavailable-seat conflict names
exactly one seat, the first in ascending order; the lock-contention
conflict names none: `conflictLock` carries no seat id by construction.) -/
theorem C4_conflict_names_contended (locked : List Nat) (bid : Nat) (ids : List Nat)
    (names : List String) (prices : List Int) (st : Store) (id : Nat)
    (h : (book_seats locked bid ids names prices st).1 = .conflictUnavailable id) :
    id ∈ ids ∧ ∃ v, lookupSeat st.seats id = some ⟨false, v⟩ := by
  rcases hchk : (checkSeats locked st (sortSeatIds ids)).1 with _ | o
  · rcases happ : applySeats bid names prices 0 (sortSeatIds ids) st with _ | st2 <;>
      simp [book_seats, hchk, happ] at h
  · have hb : (book_seats locked bid ids names prices st).1 = o := by
      simp [book_seats, hchk]
    rw [hb] at h
    subst h
    obtain ⟨hm, hv⟩ := checkSeats_conflictUnavailable locked st id _ hchk
    exact ⟨((List.perm_insertionSort _ ids).mem_iff).mp hm, hv⟩

/-- Witness for C4 (amended) at a concrete input. -/
theorem C4_conflict_names_contended_witness :
    (1 : Nat) ∈ [1, 2] ∧ ∃ v, lookupSeat stC4.seats 1 = some ⟨false, v⟩ :=
  C4_conflict_names_contended [] 9 [1, 2] ["A", "B"] [10, 20] stC4 1 (by decide)

/-! ### Claim C5 — lock acquisition order -/

/-- C5: the sequence of row-lock acquisition attempts issued by a
reservation attempt is always an initial segment of the requested seat
ids sorted in ascending order (strictly ascending for a duplicate-free
request), the sort is a permutation of the request, and when the check
loop passes the attempts are exactly the full sorted request.  Sorting is
performed by `ARRAY_AGG(... ORDER BY seat_id)` before the first lock
attempt. -/
theorem C5_lock_acquisition_sorted (locked : List Nat) (st : Store) (ids : List Nat) :
    (∃ rest, sortSeatIds ids = lockAttempts locked st ids ++ rest) ∧
    List.Perm (sortSeatIds ids) ids ∧
    List.Sorted (fun a b => a ≤ b) (sortSeatIds ids) ∧
    (ids.Nodup → List.Sorted (fun a b => a < b) (sortSeatIds ids)) ∧
    ((checkSeats locked st (sortSeatIds ids)).1 = none →
      lockAttempts locked st ids = sortSeatIds ids) := by
  refine ⟨checkSeats_trace_initial_segment locked st _, List.perm_insertionSort _ ids,
    List.sorted_insertionSort _ ids, fun hnd => ?_,
    fun h => checkSeats_none_trace locked st _ h⟩
  have hs : List.Sorted (fun a b => a ≤ b) (sortSeatIds ids) :=
    List.sorted_insertionSort _ ids
  have hnd2 : (sortSeatIds ids).Nodup :=
    ((List.perm_insertionSort _ ids).nodup_iff).mpr hnd
  exact List.Sorted.lt_of_le hs hnd2

/-- Witness for C5 at a concrete input (seat 3 has no row, so the check
loop passes over it and every sorted id is attempted). -/
theorem C5_lock_acquisition_sorted_witness :
    List.Sorted (fun a b => a < b) (sortSeatIds [3, 1, 2]) ∧
    lockAttempts [] stAvail [3, 1, 2] = sortSeatIds [3, 1, 2] :=
  ⟨(C5_lock_acquisition_sorted [] stAvail [3, 1, 2]).2.2.2.1 (by decide),
    (C5_lock_acquisition_sorted [] stAvail [3, 1, 2]).2.2.2.2 (by decide)⟩

/-! ### Claim C6 — monotonic seat state, at-most-one reservation -/

/-- C6: if any requested seat is already unavailable the attempt returns
a Conflict (lock or unavailable) and commits nothing, and no reservation
attempt ever flips a seat back to available: an unavailable seat stays
unavailable until the separate cancellation path releases it. -/
theorem C6_unavailable_conflict_monotonic (locked : List Nat) (bid : Nat)
    (ids : List Nat) (names : List String) (prices : List Int) (st : Store) :
    ((∃ id ∈ ids, ∃ v, lookupSeat st.seats id = some ⟨false, v⟩) →
      ((book_seats locked bid ids names prices st).1 = .conflictLock ∨
        ∃ j, (book_seats locked bid ids names prices st).1 = .conflictUnavailable j) ∧
      (book_seats locked bid ids names prices st).2 = st) ∧
    (∀ id v, lookupSeat st.seats id = some ⟨false, v⟩ →
      ∃ v2, lookupSeat (book_seats locked bid ids names prices st).2.seats id
        = some ⟨false, v2⟩) := by
  constructor
  · rintro ⟨id, hmem, v, hv⟩
    have hmem2 : id ∈ sortSeatIds ids :=
      ((List.perm_insertionSort _ ids).mem_iff).mpr hmem
    obtain ⟨o, ho, hc⟩ := checkSeats_unavail_conflict locked st _ ⟨id, hmem2, v, hv⟩
    have hb : book_seats locked bid ids names prices st = (o, st) := by
      simp [book_seats, ho]
    rw [hb]
    rcases hc with rfl | ⟨j, rfl⟩
    · exact ⟨Or.inl rfl, rfl⟩
    · exact ⟨Or.inr ⟨j, rfl⟩, rfl⟩
  · intro id v hv
    rcases hchk : (checkSeats locked st (sortSeatIds ids)).1 with _ | o
    · rcases happ : applySeats bid names prices 0 (sortSeatIds ids) st with _ | st2
      · have hb : book_seats locked bid ids names prices st = (.transientFailure, st) := by
          simp [book_seats, hchk, happ]
        rw [hb]
        exact ⟨v, hv⟩
      · have hb : book_seats locked bid ids names prices st = (.confirmed, st2) := by
          simp [book_seats, hchk, happ]
        rw [hb]
        exact applySeats_mono_unavail bid names prices _ 0 st st2 id v happ hv
    · have hb : book_seats locked bid ids names prices st = (o, st) := by
        simp [book_seats, hchk]
      rw [hb]
      exact ⟨v, hv⟩

/-- Witness for C6 at a concrete input. -/
theorem C6_unavailable_conflict_monotonic_witness :
    ((book_seats [] 9 [1] ["A"] [10] stC4).1 = .conflictLock ∨
      ∃ j, (book_seats [] 9 [1] ["A"] [10] stC4).1 = .conflictUnavailable j) ∧
    (book_seats [] 9 [1] ["A"] [10] stC4).2 = stC4 :=
  (C6_unavailable_conflict_monotonic [] 9 [1] ["A"] [10] stC4).1
    ⟨1, by decide, 0, by decide⟩

/-!
Part 2 embeds the refresh coordinator of `src/app/server.js`:
`getReplicationLagMs`, `waitForReplicationCatchUp`, and the debounced
scheduler built from `refreshTimer` / `refreshPending` / `refreshInFlight`
/ `refreshRequestedWhileRunning`, `runScheduledRefresh`,
`scheduleAnalyticsRefresh`, plus the handlers that call them.

Time is in milliseconds.  Lag values are integers (the JS code filters
out non-finite and negative interval lags); a sample of `none` models the
`!rows.length` no-data result.
-/

/-- What one `pg_stat_subscription` query can produce: a thrown error, no
row for the subscription name, or a row with three optional interval lags
and two optional timestamps (an absent or non-parseable value is `none`,
matching the Number.isFinite / timestamp-parse guards). -/
inductive LagQuery
  | errored
  | noRows
  | row (writeLag flushLag applyLag : Option Int) (receiptTime applyTime : Option Int)
deriving DecidableEq, Repr

/-- The guard applied to each interval lag: keep it only when it parsed
to a finite number that is `≥ 0`. -/
def validLag : Option Int → Option Int
  | some l => if 0 ≤ l then some l else none
  | none => none

/-- `getReplicationLagMs`: on a query error it logs and returns 0; with no
row it returns null; otherwise it returns the max of the valid interval
lags, else falls back to `now` minus the newest known timestamp (clamped
at 0), else 0. -/
def getReplicationLagMs (now : Int) (q : LagQuery) : Option Int :=
  match q with
  | .errored => some 0
  | .noRows => none
  | .row w f a receiptTime applyTime =>
    match [w, f, a].filterMap validLag with
    | l :: ls => some (ls.foldl max l)
    | [] =>
      match [receiptTime, applyTime].filterMap id with
      | [] => some 0
      | t :: ts => some (((t :: ts).map (fun x => max 0 (now - x))).foldl max 0)

/-- Result of `waitForReplicationCatchUp`, as the string statuses of the
source: `skipped` (max wait configured to 0), `caught-up`, `timed-out`
(a sample was seen but never ≤ target before the deadline), `no-stats`
(no sample was ever seen before the deadline). -/
inductive WaitStat
  | skipped
  | caughtUp
  | timedOut
  | noStats
deriving DecidableEq, Repr

/-- The polling loop of `waitForReplicationCatchUp`.  `oracle k` is the
lag sample observed by the k-th poll; each iteration sleeps exactly
`poll` ms, so the elapsed time before the k-th poll is `k * poll` and the
loop runs while that is `< maxWait`.  Returns the status together with
the number of completed polls at exit. -/
def waitAux (oracle : Nat → Option Int) (target : Int) (maxWait poll : Nat)
    (hp : 0 < poll) (k : Nat) (saw : Bool) : WaitStat × Nat :=
  if _h : k * poll < maxWait then
    match oracle k with
    | some lag =>
      if lag ≤ target then (.caughtUp, k)
      else waitAux oracle target maxWait poll hp (k + 1) true
    | none => waitAux oracle target maxWait poll hp (k + 1) saw
  else (if saw then (.timedOut, k) else (.noStats, k))
termination_by maxWait - k * poll
decreasing_by
  · have h2 : (k + 1) * poll = k * poll + poll := Nat.succ_mul k poll
    omega
  · have h2 : (k + 1) * poll = k * poll + poll := Nat.succ_mul k poll
    omega

/-- `waitForReplicationCatchUp` with its configuration made explicit:
returns `skipped` immediately when the configured max wait is 0, and the
poll interval is clamped below at 50 ms exactly as in
`replicationPollIntervalMs = Math.max(50, ...)`. -/
def waitForReplicationCatchUp (oracle : Nat → Option Int) (target : Int)
    (maxWait rawPoll : Nat) : WaitStat × Nat :=
  if maxWait = 0 then (.skipped, 0)
  else
    waitAux oracle target maxWait (max 50 rawPoll)
      (Nat.lt_of_lt_of_le (by decide) (Nat.le_max_left 50 rawPoll)) 0 false

/-- `runScheduledRefresh` sets `shouldRetry` exactly when the lag wait
reported timed-out or no-stats, scheduling a corrective follow-up refresh. -/
def shouldRetryOf : WaitStat → Bool
  | .timedOut => true
  | .noStats => true
  | _ => false

/-! ### Lag-wait loop lemmas -/

theorem waitAux_spec (oracle : Nat → Option Int) (target : Int) (maxWait poll : Nat)
    (hp : 0 < poll) :
    ∀ k saw, k * poll < maxWait + poll →
      ((waitAux oracle target maxWait poll hp k saw).2 * poll < maxWait + poll) ∧
      ((waitAux oracle target maxWait poll hp k saw).1 ≠ .caughtUp →
        maxWait ≤ (waitAux oracle target maxWait poll hp k saw).2 * poll) ∧
      ((∀ j l, oracle j = some l → target < l) →
        (waitAux oracle target maxWait poll hp k saw).1 ≠ .caughtUp) := by
  have main : ∀ d k saw, maxWait - k * poll = d → k * poll < maxWait + poll →
      ((waitAux oracle target maxWait poll hp k saw).2 * poll < maxWait + poll) ∧
      ((waitAux oracle target maxWait poll hp k saw).1 ≠ .caughtUp →
        maxWait ≤ (waitAux oracle target maxWait poll hp k saw).2 * poll) ∧
      ((∀ j l, oracle j = some l → target < l) →
        (waitAux oracle target maxWait poll hp k saw).1 ≠ .caughtUp) := by
    intro d
    induction d using Nat.strong_induction_on with
    | _ d IH =>
      intro k saw hd hk
      by_cases h : k * poll < maxWait
      · have hsucc : (k + 1) * poll = k * poll + poll := Nat.succ_mul k poll
        rw [waitAux, dif_pos h]
        rcases ho : oracle k with _ | lag
        · exact IH (maxWait - (k + 1) * poll) (by omega) (k + 1) saw rfl (by omega)
        · dsimp only
          by_cases hlag : lag ≤ target
          · rw [if_pos hlag]
            refine ⟨by show k * poll < maxWait + poll; omega,
              fun habs => absurd rfl habs, fun hor => ?_⟩
            exact absurd hlag (not_le.mpr (hor k lag ho))
          · rw [if_neg hlag]
            exact IH (maxWait - (k + 1) * poll) (by omega) (k + 1) true rfl (by omega)
      · rw [waitAux, dif_neg h]
        cases saw
        · exact ⟨hk, fun _ => Nat.le_of_not_lt h, fun _ hc => by cases hc⟩
        · exact ⟨hk, fun _ => Nat.le_of_not_lt h, fun _ hc => by cases hc⟩
  intro k saw hk
  exact main (maxWait - k * poll) k saw rfl hk

/-! ### Claim C9 — lag-wait termination and bounded wait -/

/-- C9: for every sequence of lag samples the wait loop stops polling at
the first multiple of the poll interval at or past the configured
maximum: the elapsed wait is below maxWait + poll, any non-caught-up exit
other than `skipped` has already reached maxWait, and when no sample is
ever ≤ the target the loop never reports caught-up — the refresh then
proceeds anyway (timed-out / no-stats / skipped all fall through to
`refreshAnalytics`). -/
theorem C9_lag_wait_bounded (oracle : Nat → Option Int) (target : Int)
    (maxWait rawPoll : Nat) :
    ((waitForReplicationCatchUp oracle target maxWait rawPoll).2 * max 50 rawPoll
        < maxWait + max 50 rawPoll) ∧
    ((waitForReplicationCatchUp oracle target maxWait rawPoll).1 ≠ .caughtUp →
      (waitForReplicationCatchUp oracle target maxWait rawPoll).1 = .skipped ∨
        maxWait ≤ (waitForReplicationCatchUp oracle target maxWait rawPoll).2
          * max 50 rawPoll) ∧
    ((∀ j l, oracle j = some l → target < l) →
      (waitForReplicationCatchUp oracle target maxWait rawPoll).1 ≠ .caughtUp) := by
  by_cases hmw : maxWait = 0
  · subst hmw
    simp only [waitForReplicationCatchUp, if_pos rfl]
    refine ⟨by simp, fun _ => Or.inl rfl, fun _ hc => by cases hc⟩
  · have hspec := waitAux_spec oracle target maxWait (max 50 rawPoll)
      (Nat.lt_of_lt_of_le (by decide) (Nat.le_max_left 50 rawPoll)) 0 false
      (by simp)
    simp only [waitForReplicationCatchUp, if_neg hmw]
    exact ⟨hspec.1, fun hne => Or.inr (hspec.2.1 hne), hspec.2.2⟩

/-- Witness for C9: a lag provider stuck at 5 ms with target 0 never
catches up, and the loop has consumed the whole 60 ms budget at exit. -/
theorem C9_lag_wait_bounded_witness :
    (waitForReplicationCatchUp (fun _ => some 5) 0 60 0).1 ≠ .caughtUp ∧
    ((waitForReplicationCatchUp (fun _ => some 5) 0 60 0).1 = .skipped ∨
      60 ≤ (waitForReplicationCatchUp (fun _ => some 5) 0 60 0).2 * max 50 0) := by
  have h3 := (C9_lag_wait_bounded (fun _ => some 5) 0 60 0).2.2
    (fun j l hl => by cases hl; decide)
  exact ⟨h3, (C9_lag_wait_bounded (fun _ => some 5) 0 60 0).2.1 h3⟩

/-! ### Claim C10 — a lag-query error reads as zero lag -/

/-- C10: when the replication-lag query throws, `getReplicationLagMs`
returns 0 (not null); since 0 is ≤ every non-negative target, the very
first poll of the wait loop reports caught-up with zero completed polls,
and `runScheduledRefresh` therefore sets no corrective follow-up
(`shouldRetry` is only set on timed-out or no-stats). -/
theorem C10_error_reads_caught_up (now target : Int) (maxWait rawPoll : Nat)
    (hmw : 0 < maxWait) (ht : 0 ≤ target) :
    getReplicationLagMs now .errored = some 0 ∧
    waitForReplicationCatchUp (fun _ => getReplicationLagMs now .errored)
        target maxWait rawPoll = (.caughtUp, 0) ∧
    shouldRetryOf
      (waitForReplicationCatchUp (fun _ => getReplicationLagMs now .errored)
        target maxWait rawPoll).1 = false := by
  have h1 : getReplicationLagMs now .errored = some 0 := rfl
  have h2 : waitForReplicationCatchUp (fun _ => getReplicationLagMs now .errored)
      target maxWait rawPoll = (.caughtUp, 0) := by
    have hmw2 : maxWait ≠ 0 := Nat.pos_iff_ne_zero.mp hmw
    have hlt : 0 * max 50 rawPoll < maxWait := by simpa using hmw
    simp only [waitForReplicationCatchUp, if_neg hmw2]
    rw [waitAux, dif_pos hlt]
    simp only [h1]
    rw [if_pos ht]
  refine ⟨h1, h2, ?_⟩
  rw [h2]
  rfl

/-- Witness for C10 at the default configuration values. -/
theorem C10_error_reads_caught_up_witness :
    getReplicationLagMs 0 .errored = some 0 ∧
    waitForReplicationCatchUp (fun _ => getReplicationLagMs 0 .errored)
        1500 60000 250 = (.caughtUp, 0) ∧
    shouldRetryOf
      (waitForReplicationCatchUp (fun _ => getReplicationLagMs 0 .errored)
        1500 60000 250).1 = false :=
  C10_error_reads_caught_up 0 1500 60000 250 (by decide) (by decide)

/-!
Part 3: the debounced refresh scheduler of `src/app/server.js` as an
event machine over the single-threaded JS event loop.

State mirrors the module-level variables `refreshTimer` (at most one live
timeout exists, because `scheduleAnalyticsRefresh` always clears the old
handle before setting a new one and stores the handle in a single
variable — the timer is modelled as an optional deadline), `refreshPending`,
`refreshInFlight`, `refreshRequestedWhileRunning`, plus the program
counters of the asynchronous bodies: a `runScheduledRefresh` body is
either awaiting `waitForReplicationCatchUp` (`schedWaiting`) or awaiting
`refreshAnalytics` (`schedRefreshing`); a `POST /api/reports/refresh`
handler is likewise awaiting the lag wait (`manualWaiting`) or awaiting
`refreshAnalytics` (`manualRefreshing`).  `calls` counts started
`refresh_all_analytics` calls and `now` is the current time in ms.

Each event is one synchronous segment between awaits, which the JS event
loop executes atomically.  Events carry their wall-clock time; a step is
only enabled when time is monotone, a `fire` only when the stored timer
deadline has been reached.
-/

structure Sched where
  timer : Option Nat
  pending : Bool
  inFlight : Bool
  reqWhileRunning : Bool
  schedWaiting : Nat
  schedRefreshing : Nat
  schedRetry : Bool
  manualWaiting : Nat
  manualRefreshing : Nat
  calls : Nat
  now : Nat
deriving DecidableEq, Repr

/-- Process start: all flags false, no timer. -/
def initSched : Sched :=
  { timer := none, pending := false, inFlight := false, reqWhileRunning := false,
    schedWaiting := 0, schedRefreshing := 0, schedRetry := false,
    manualWaiting := 0, manualRefreshing := 0, calls := 0, now := 0 }

/-- Events: `notify t` is a `scheduleAnalyticsRefresh()` call (NotifyWrite)
at time t; `fire t` is the debounce timeout callback starting
`runScheduledRefresh`; `schedWaitDone t retry` is the scheduled body
resuming after its lag wait (with `retry` = whether the wait reported
timed-out or no-stats) and immediately issuing `refreshAnalytics`;
`schedRefreshDone t ok` is that refresh call returning (ok = it did not
throw) and the `finally` block running; the `manual*` events are the same
two awaits of the `POST /api/reports/refresh` handler, which calls
`waitForReplicationCatchUp` and `refreshAnalytics` directly. -/
inductive Ev
  | notify (t : Nat)
  | fire (t : Nat)
  | schedWaitDone (t : Nat) (retry : Bool)
  | schedRefreshDone (t : Nat) (ok : Bool)
  | manualStart (t : Nat)
  | manualWaitDone (t : Nat)
  | manualRefreshDone (t : Nat)
deriving DecidableEq, Repr

/-- Whether an event belongs to the manual-refresh endpoint. -/
def Ev.isManual : Ev → Bool
  | .manualStart _ => true
  | .manualWaitDone _ => true
  | .manualRefreshDone _ => true
  | _ => false

/-- `scheduleAnalyticsRefresh` (the NotifyWrite entry point): while a
refresh is in flight it only records `refreshRequestedWhileRunning`;
otherwise it marks a refresh pending and (re)sets the debounce timer,
clearing any previous one — the deadline becomes `t + delay`. -/
def scheduleAnalyticsRefresh (delay t : Nat) (s : Sched) : Sched :=
  if s.inFlight then { s with reqWhileRunning := true }
  else { s with pending := true, timer := some (t + delay) }

/-- One atomic step of the event loop; `none` means the event is not
enabled in this state (time not monotone, no timer to fire, no awaiting
body to resume). -/
def step (delay : Nat) (s : Sched) : Ev → Option Sched
  | .notify t =>
    if s.now ≤ t then some (scheduleAnalyticsRefresh delay t { s with now := t })
    else none
  | .fire t =>
    match s.timer with
    | some d =>
      if s.now ≤ t ∧ d ≤ t then
        if s.pending then
          some { s with
            now := t, timer := none, pending := false,
            inFlight := true, schedWaiting := s.schedWaiting + 1 }
        else some { s with now := t, timer := none }
      else none
    | none => none
  | .schedWaitDone t retry =>
    if s.now ≤ t ∧ 0 < s.schedWaiting then
      some { s with
        now := t, schedWaiting := s.schedWaiting - 1,
        schedRefreshing := s.schedRefreshing + 1, schedRetry := retry,
        calls := s.calls + 1 }
    else none
  | .schedRefreshDone t ok =>
    if s.now ≤ t ∧ 0 < s.schedRefreshing then
      if s.reqWhileRunning || (ok && s.schedRetry) then
        some (scheduleAnalyticsRefresh delay t
          { s with
            now := t, schedRefreshing := s.schedRefreshing - 1,
            inFlight := false, reqWhileRunning := false, schedRetry := false })
      else
        some { s with
          now := t, schedRefreshing := s.schedRefreshing - 1,
          inFlight := false, reqWhileRunning := false, schedRetry := false }
    else none
  | .manualStart t =>
    if s.now ≤ t then some { s with now := t, manualWaiting := s.manualWaiting + 1 }
    else none
  | .manualWaitDone t =>
    if s.now ≤ t ∧ 0 < s.manualWaiting then
      some { s with
        now := t, manualWaiting := s.manualWaiting - 1,
        manualRefreshing := s.manualRefreshing + 1, calls := s.calls + 1 }
    else none
  | .manualRefreshDone t =>
    if s.now ≤ t ∧ 0 < s.manualRefreshing then
      some { s with now := t, manualRefreshing := s.manualRefreshing - 1 }
    else none

/-- Run a sequence of events from a state; fails if any event is not enabled. -/
def runEvents (delay : Nat) : Sched → List Ev → Option Sched
  | s, [] => some s
  | s, e :: rest =>
    match step delay s e with
    | some s1 => runEvents delay s1 rest
    | none => none

/-- Number of `refresh_all_analytics` calls currently in flight. -/
def refreshInFlightCount (s : Sched) : Nat :=
  s.schedRefreshing + s.manualRefreshing

/-- Number of NotifyWrite events in a trace. -/
def countNotifies : List Ev → Nat
  | [] => 0
  | .notify _ :: rest => countNotifies rest + 1
  | _ :: rest => countNotifies rest

example :
    (runEvents 2000 initSched
      [Ev.notify 0, Ev.fire 2000, Ev.schedWaitDone 2100 false,
       Ev.schedRefreshDone 2200 true]).map Sched.calls = some 1 := by rfl

/-! ### Scheduler invariant: the scheduled path runs at most one body -/

/-- Invariant of the scheduled-refresh path: the `refreshInFlight` flag
counts the active `runScheduledRefresh` bodies exactly, an active body
implies no live timer, and (for traces without manual-endpoint events)
no manual handler exists. -/
def SchedInv (s : Sched) : Prop :=
  s.schedWaiting + s.schedRefreshing = (if s.inFlight then 1 else 0) ∧
  (s.inFlight = true → s.timer = none) ∧
  s.manualWaiting = 0 ∧ s.manualRefreshing = 0

theorem step_preserves_SchedInv (delay : Nat) (s : Sched) (e : Ev) (s2 : Sched)
    (hm : e.isManual = false) (hinv : SchedInv s) (hs : step delay s e = some s2) :
    SchedInv s2 := by
  obtain ⟨h1, h2, h3, h4⟩ := hinv
  unfold SchedInv
  cases e with
  | notify t =>
    simp only [step] at hs
    split at hs
    · cases hs
      unfold scheduleAnalyticsRefresh
      by_cases hif : s.inFlight = true
      · rw [if_pos hif]
        exact ⟨h1, h2, h3, h4⟩
      · rw [if_neg hif]
        exact ⟨h1, fun hh => absurd hh hif, h3, h4⟩
    · cases hs
  | fire t =>
    simp only [step] at hs
    rcases ht : s.timer with _ | d
    · simp only [ht] at hs
      cases hs
    · simp only [ht] at hs
      split at hs
      · split at hs
        · cases hs
          have hnif : s.inFlight = false := by
            cases hb : s.inFlight
            · rfl
            · rw [h2 hb] at ht
              cases ht
          rw [hnif] at h1
          simp only [Bool.false_eq_true, if_false] at h1
          refine ⟨?_, fun _ => rfl, h3, h4⟩
          simp only [if_pos]
          omega
        · cases hs
          exact ⟨h1, fun _ => rfl, h3, h4⟩
      · cases hs
  | schedWaitDone t retry =>
    simp only [step] at hs
    split at hs
    · rename_i hc
      cases hs
      have hif : s.inFlight = true := by
        cases hb : s.inFlight
        · rw [hb] at h1
          simp only [Bool.false_eq_true, if_false] at h1
          omega
        · rfl
      rw [hif] at h1
      simp only [if_pos] at h1
      refine ⟨?_, fun _ => h2 hif, h3, h4⟩
      rw [hif]
      simp only [if_pos]
      omega
    · cases hs
  | schedRefreshDone t ok =>
    simp only [step] at hs
    split at hs
    · rename_i hc
      have hif : s.inFlight = true := by
        cases hb : s.inFlight
        · rw [hb] at h1
          simp only [Bool.false_eq_true, if_false] at h1
          omega
        · rfl
      rw [hif] at h1
      simp only [if_pos] at h1
      split at hs
      · cases hs
        unfold scheduleAnalyticsRefresh
        refine ⟨?_, ?_, h3, h4⟩
        · simp
          omega
        · intro hh
          simp at hh
      · cases hs
        refine ⟨?_, ?_, h3, h4⟩
        · simp
          omega
        · intro hh
          simp at hh
    · cases hs
  | manualStart t =>
    simp [Ev.isManual] at hm
  | manualWaitDone t =>
    simp [Ev.isManual] at hm
  | manualRefreshDone t =>
    simp [Ev.isManual] at hm

theorem runEvents_preserves_SchedInv (delay : Nat) :
    ∀ tr s s2, (∀ e ∈ tr, e.isManual = false) → SchedInv s →
      runEvents delay s tr = some s2 → SchedInv s2 := by
  intro tr
  induction tr with
  | nil =>
    intro s s2 _ hinv h
    cases h
    exact hinv
  | cons e rest ih =>
    intro s s2 hman hinv h
    simp only [runEvents] at h
    rcases hstep : step delay s e with _ | s1
    · simp only [hstep] at h
      cases h
    · simp only [hstep] at h
      exact ih s1 s2 (fun e2 he2 => hman e2 (List.mem_cons_of_mem e he2))
        (step_preserves_SchedInv delay s e s1 (hman e (List.mem_cons_self e rest)) hinv hstep) h

/-! ### Claim C2 — no two concurrent refresh calls -/

/-- C2 counterexample: a manual `POST /api/reports/refresh` request that
finishes its lag wait while the scheduled refresh body is still awaiting
`refreshAnalytics` issues its own `refreshAnalytics` call — the manual
endpoint never consults `refreshInFlight`, so two `refresh_all_analytics`
calls are in flight at once, refuting "at most one underlying refresh
call is in flight" and "never two concurrent ones". -/
theorem C2_counterexample_manual_overlaps :
    (runEvents 2000 initSched
      [Ev.notify 0, Ev.fire 2000, Ev.schedWaitDone 2100 false,
       Ev.manualStart 2100, Ev.manualWaitDone 2200]).map refreshInFlightCount
      = some 2 := by rfl

/-- C2 (amended): along every event trace that involves no
manual-endpoint event, at most one refresh call is in flight at any
moment — `NotifyWrite` during `Refreshing` is absorbed into
`refreshRequestedWhileRunning` instead of spawning refresh work. -/
theorem C2_scheduled_refresh_no_overlap (delay : Nat) (tr : List Ev) (s2 : Sched)
    (hman : ∀ e ∈ tr, e.isManual = false)
    (hrun : runEvents delay initSched tr = some s2) :
    refreshInFlightCount s2 ≤ 1 := by
  obtain ⟨h1, _, _, h4⟩ :=
    runEvents_preserves_SchedInv delay tr initSched s2 hman
      (by simp [SchedInv, initSched]) hrun
  unfold refreshInFlightCount
  rw [h4]
  cases hb : s2.inFlight
  · rw [hb] at h1
    simp only [Bool.false_eq_true, if_false] at h1
    omega
  · rw [hb] at h1
    simp only [if_pos] at h1
    omega

/-- Witness for C2 (amended) on a concrete manual-free trace: one
notification, the timer firing, and the scheduled body now refreshing. -/
theorem C2_scheduled_refresh_no_overlap_witness :
    refreshInFlightCount
      { timer := none, pending := false, inFlight := true, reqWhileRunning := false,
        schedWaiting := 0, schedRefreshing := 1, schedRetry := false,
        manualWaiting := 0, manualRefreshing := 0, calls := 1, now := 2500 } ≤ 1 :=
  C2_scheduled_refresh_no_overlap 2000
    [Ev.notify 0, Ev.fire 2000, Ev.schedWaitDone 2500 false] _ (by decide) rfl

/-! ### Claim C7 — debounce coalescing -/

theorem runEvents_append (delay : Nat) :
    ∀ (l1 l2 : List Ev) (s : Sched),
      runEvents delay s (l1 ++ l2)
        = match runEvents delay s l1 with
          | some s1 => runEvents delay s1 l2
          | none => none := by
  intro l1
  induction l1 with
  | nil =>
    intro l2 s
    rfl
  | cons e l1 ih =>
    intro l2 s
    simp only [List.cons_append, runEvents]
    rcases step delay s e with _ | s1
    · rfl
    · exact ih l2 s1

theorem runEvents_cons_some (delay : Nat) (s s1 : Sched) (e : Ev) (tr : List Ev)
    (h : step delay s e = some s1) :
    runEvents delay s (e :: tr) = runEvents delay s1 tr := by
  simp only [runEvents, h]

theorem step_notify_idle (delay t : Nat) (s : Sched) (hif : s.inFlight = false)
    (hnow : s.now ≤ t) :
    step delay s (Ev.notify t)
      = some { s with pending := true, timer := some (t + delay), now := t } := by
  simp only [step, if_pos hnow, scheduleAnalyticsRefresh]
  rw [if_neg (by simp [hif])]

theorem runEvents_notify_burst (delay : Nat) :
    ∀ (rest : List Nat) (t0 : Nat) (s : Sched), s.inFlight = false → s.now ≤ t0 →
      List.Chain (fun a b => a < b) t0 rest →
      runEvents delay s ((t0 :: rest).map Ev.notify)
        = some { s with
            pending := true,
            timer := some ((t0 :: rest).getLast (List.cons_ne_nil t0 rest) + delay),
            now := (t0 :: rest).getLast (List.cons_ne_nil t0 rest) } := by
  intro rest
  induction rest with
  | nil =>
    intro t0 s hif hnow _
    rw [List.map, List.map,
      runEvents_cons_some delay s _ _ _ (step_notify_idle delay t0 s hif hnow)]
    rfl
  | cons t1 rest2 ih =>
    intro t0 s hif hnow hchain
    cases hchain with
    | cons hlt hchain2 =>
      have hrec := ih t1 { s with pending := true, timer := some (t0 + delay), now := t0 }
        hif (Nat.le_of_lt hlt) hchain2
      rw [List.map,
        runEvents_cons_some delay s _ _ _ (step_notify_idle delay t0 s hif hnow), hrec,
        List.getLast_cons (List.cons_ne_nil t1 rest2)]

/-- Trace for the C7 counterexample: one NotifyWrite, whose refresh hits
a timed-out lag wait, causing `shouldRetry` to schedule a second refresh. -/
def trC7 : List Ev :=
  [Ev.notify 0, Ev.fire 2000, Ev.schedWaitDone 2100 true, Ev.schedRefreshDone 2200 true,
   Ev.fire 4200, Ev.schedWaitDone 4300 false, Ev.schedRefreshDone 4400 true]

/-- C7 counterexample: N = 1 NotifyWrite call leads to TWO refresh calls
when the lag wait of the first refresh reports timed-out or no-stats,
because `runScheduledRefresh` then re-runs `scheduleAnalyticsRefresh`
itself — so "N NotifyWrite calls ... cause exactly one refresh call" is
false as stated. -/
theorem C7_counterexample_retry_second_refresh :
    countNotifies trC7 = 1 ∧ (runEvents 2000 initSched trC7).map Sched.calls = some 2 := by
  exact ⟨rfl, rfl⟩

/-- C7 (amended): N ≥ 1 NotifyWrite calls each arriving within less than
the debounce window of the previous one leave exactly one pending timer,
whose deadline is the last call time plus the window, with no refresh
call issued during the burst (`calls` is still 0 in the burst state);
when that timer then fires — necessarily at or after lastCall + window —
and the lag wait reports caught-up, exactly one refresh call results and
no further timer or pending flag remains.  (If the lag wait instead
times out, one corrective follow-up refresh is scheduled in addition.) -/
theorem C7_debounce_coalesces (delay t0 tf tw td : Nat) (rest : List Nat)
    (hchain : List.Chain (fun a b => a < b ∧ b < a + delay) t0 rest)
    (hf : (t0 :: rest).getLast (List.cons_ne_nil t0 rest) + delay ≤ tf)
    (hw : tf ≤ tw) (hd : tw ≤ td) :
    (runEvents delay initSched ((t0 :: rest).map Ev.notify)
      = some { initSched with
          pending := true,
          timer := some ((t0 :: rest).getLast (List.cons_ne_nil t0 rest) + delay),
          now := (t0 :: rest).getLast (List.cons_ne_nil t0 rest) }) ∧
    ((runEvents delay initSched ((t0 :: rest).map Ev.notify
        ++ [Ev.fire tf, Ev.schedWaitDone tw false, Ev.schedRefreshDone td true])).map
      (fun s => (s.calls, s.timer, s.pending)) = some (1, none, false)) := by
  have hchain2 : List.Chain (fun a b => a < b) t0 rest :=
    hchain.imp (fun a b h => h.1)
  have hburst := runEvents_notify_burst delay rest t0 initSched rfl (Nat.zero_le t0) hchain2
  refine ⟨hburst, ?_⟩
  rw [runEvents_append delay _ _ initSched, hburst]
  have hLtf : (t0 :: rest).getLast (List.cons_ne_nil t0 rest) ≤ tf :=
    le_trans (Nat.le_add_right _ delay) hf
  simp [runEvents, step, scheduleAnalyticsRefresh, initSched, hLtf, hf, hw, hd]

/-- Witness for C7 (amended): two NotifyWrites 1500 ms apart with a
2000 ms window, the timer firing at 3500 = 1500 + 2000, one refresh. -/
theorem C7_debounce_coalesces_witness :
    (runEvents 2000 initSched ((0 :: [1500]).map Ev.notify
        ++ [Ev.fire 3500, Ev.schedWaitDone 3600 false, Ev.schedRefreshDone 3700 true])).map
      (fun s => (s.calls, s.timer, s.pending)) = some (1, none, false) :=
  (C7_debounce_coalesces 2000 0 3500 3600 3700 [1500]
    (List.Chain.cons (by decide) List.Chain.nil) (by decide) (by decide) (by decide)).2

/-!
Part 4: the mutating HTTP handlers of `src/app/server.js` as
action-emitting functions.  Each handler returns the resulting durable
state together with the ordered list of observable actions it performs;
`notifyWrite` stands for the `scheduleAnalyticsRefresh()` call.
-/

/-- Observable actions of a handler, in program order. -/
inductive SrvAction
  | beginTxn
  | commitTxn
  | rollbackTxn
  | notifyWrite
  | respond (code : Nat)
deriving DecidableEq, Repr

/-- `POST /api/bookings`: BEGIN, run `book_seats` inside the transaction;
on success COMMIT, then `scheduleAnalyticsRefresh()`, then respond 200;
on any error ROLLBACK and respond 409 (message mentions "not available"
or "lock") or 500 — with no notification. -/
def postBookings (locked : List Nat) (bookingId : Nat) (seatIds : List Nat)
    (passengerNames : List String) (prices : List Int) (st : Store) :
    Store × List SrvAction :=
  match book_seats locked bookingId seatIds passengerNames prices st with
  | (.confirmed, st2) =>
    (st2, [.beginTxn, .commitTxn, .notifyWrite, .respond 200])
  | (.conflictUnavailable _, st2) => (st2, [.beginTxn, .rollbackTxn, .respond 409])
  | (.conflictLock, st2) => (st2, [.beginTxn, .rollbackTxn, .respond 409])
  | (.transientFailure, st2) => (st2, [.beginTxn, .rollbackTxn, .respond 500])

/-- `POST /api/bookings/:bookingId/cancel`: BEGIN, release every seat of
the booking (`is_available = TRUE`), COMMIT, `scheduleAnalyticsRefresh()`,
respond 200. -/
def postCancel (bookingId : Nat) (st : Store) : Store × List SrvAction :=
  ({ st with
      seats := ((st.lines.filter (fun l => l.bookingId == bookingId)).map
        (fun l => l.seatId)).foldl releaseSeatRow st.seats },
    [.beginTxn, .commitTxn, .notifyWrite, .respond 200])

/-- The SQL function `batch_update_flight_status`: set the status of
every listed flight whose status differs, returning the updated rows and
their count. -/
def batch_update_flight_status (flightIds : List Nat) (newStatus : String) :
    List (Nat × String) → List (Nat × String) × Nat
  | [] => ([], 0)
  | (i, st) :: rest =>
    if i ∈ flightIds ∧ st ≠ newStatus then
      ((i, newStatus) :: (batch_update_flight_status flightIds newStatus rest).1,
        (batch_update_flight_status flightIds newStatus rest).2 + 1)
    else
      ((i, st) :: (batch_update_flight_status flightIds newStatus rest).1,
        (batch_update_flight_status flightIds newStatus rest).2)

/-- `POST /api/flights/batch-update`: a single auto-committing query,
then respond 200.  The handler performs NO `scheduleAnalyticsRefresh()`
call (lines 695-712 of server.js contain none). -/
def postBatchUpdate (flightIds : List Nat) (newStatus : String)
    (flights : List (Nat × String)) : List (Nat × String) × List SrvAction :=
  ((batch_update_flight_status flightIds newStatus flights).1,
    [.commitTxn, .respond 200])

/-! ### Claim C8 — NotifyWrite after every successful mutating transaction -/

/-- C8 counterexample: a successful batch flight-status update that
really mutates a row (1 row updated) emits no `notifyWrite` action — the
batch-update endpoint never calls `scheduleAnalyticsRefresh`, refuting
"NotifyWrite is invoked after every successful mutating transaction ...
and batch flight-status update". -/
theorem C8_counterexample_batch_no_notify :
    (batch_update_flight_status [1] "cancelled" [(1, "scheduled"), (2, "scheduled")]).2
      = 1 ∧
    (postBatchUpdate [1] "cancelled" [(1, "scheduled"), (2, "scheduled")]).1
      = [(1, "cancelled"), (2, "scheduled")] ∧
    SrvAction.notifyWrite ∉
      (postBatchUpdate [1] "cancelled" [(1, "scheduled"), (2, "scheduled")]).2 := by
  exact ⟨by decide, by decide, by decide⟩

/-- C8 (amended): `scheduleAnalyticsRefresh` is invoked — immediately
after COMMIT — for every successful booking creation and for every
booking cancellation, and is not invoked on failed bookings; the batch
flight-status update endpoint never invokes it. -/
theorem C8_notify_after_commit (locked : List Nat) (bid : Nat) (ids : List Nat)
    (names : List String) (prices : List Int) (st : Store) (cancelId : Nat)
    (st2 : Store) (fids : List Nat) (ns : String) (fl : List (Nat × String)) :
    ((book_seats locked bid ids names prices st).1 = .confirmed →
      (postBookings locked bid ids names prices st).2
        = [.beginTxn, .commitTxn, .notifyWrite, .respond 200]) ∧
    ((book_seats locked bid ids names prices st).1 ≠ .confirmed →
      SrvAction.notifyWrite ∉ (postBookings locked bid ids names prices st).2) ∧
    (postCancel cancelId st2).2 = [.beginTxn, .commitTxn, .notifyWrite, .respond 200] ∧
    SrvAction.notifyWrite ∉ (postBatchUpdate fids ns fl).2 := by
  rcases hb : book_seats locked bid ids names prices st with ⟨o, st3⟩
  refine ⟨?_, ?_, rfl, ?_⟩
  · intro hc
    have ho : o = .confirmed := hc
    subst ho
    simp [postBookings, hb]
  · intro hc
    have ho : o ≠ .confirmed := hc
    cases o with
    | confirmed => exact absurd rfl ho
    | conflictUnavailable j => simp [postBookings, hb]
    | conflictLock => simp [postBookings, hb]
    | transientFailure => simp [postBookings, hb]
  · simp [postBatchUpdate]

/-- Witness for C8 (amended) at concrete inputs. -/
theorem C8_notify_after_commit_witness :
    (postBookings [] 7 [1] ["A"] [10] stAvail).2
      = [.beginTxn, .commitTxn, .notifyWrite, .respond 200] ∧
    (postCancel 3 stAvail).2 = [.beginTxn, .commitTxn, .notifyWrite, .respond 200] ∧
    SrvAction.notifyWrite ∉ (postBatchUpdate [1] "cancelled" [(1, "scheduled")]).2 := by
  have h := C8_notify_after_commit [] 7 [1] ["A"] [10] stAvail 3 stAvail
    [1] "cancelled" [(1, "scheduled")]
  exact ⟨h.1 (by decide), h.2.2.1, h.2.2.2⟩
